import Mathlib

/-!
Verification of the `llmc` session store against its specification.

The Go code under verification lives in `internal/llmc/session/` (storage
layer and identity resolver) and `cmd/sessions.go` / `cmd/chat.go`
(ancestry walker, retention cleanup, threshold guard, interactive loop).
Pure Lean translations of those functions are given below; time instants
are modelled as natural numbers (abstract ticks), and the session
directory is modelled as the list of sessions held in its files.
-/

/-- A JSON string literal as produced by Go's `encoding/json`.
`timeRendered n` stands for the RFC3339 text that the standard library
renders for the instant `n` (`time.Time.MarshalJSON`); the Gregorian
rendering itself is standard-library code, so the model keeps only the
properties that matter: the rendering is injective and parses back to the
same instant. -/
inductive JStr where
  | plain (s : String)
  | timeRendered (n : Nat)
deriving DecidableEq, Repr

/-- The dynamic value held by the `Timestamp` field of `llmc.Message`.
Modelled from the spec: the declaration of `llmc.Message` is not under
`src/`; the spec gives it a role, a text content and a creation
timestamp, and the type assertion `msg.Timestamp.(string)` in
`cmd/sessions.go` (line 117) forces the timestamp field to be
dynamically typed (a Go `interface{}`): it holds a `time.Time` right
after `AddMessage`, and a string after a session file has been loaded. -/
inductive TimeVal where
  | goTime (n : Nat)
  | goString (s : JStr)
  | goNil
deriving DecidableEq, Repr

/-- Modelled from the spec: `llmc.Message` (role, text content, creation
timestamp); the declaration itself is missing from `src/`, its fields are
taken from the spec's data model and from the accessors used by
`session.go` and `cmd/sessions.go`. -/
structure Message where
  Role : String
  Content : String
  Timestamp : TimeVal
deriving DecidableEq, Repr

/-- `session.Session` from `internal/llmc/session/session.go`.
`time.Time` values are modelled as abstract instants (`Nat`). -/
structure Session where
  ID : String
  ParentID : String
  Name : String
  TemplateName : String
  SystemPrompt : String
  Model : String
  CreatedAt : Nat
  UpdatedAt : Nat
  Messages : List Message
deriving DecidableEq, Repr

/-- Go `len` on a string counts bytes, not characters. -/
def goLen (s : String) : Nat := s.utf8ByteSize

/-- Go `strings.HasPrefix(id, p)`. -/
def isIDPfx (p id : String) : Bool := p.data.isPrefixOf id.data

/-- Go `strings.Count(s, "-")` (count of dashes). -/
def dashCount (s : String) : Nat := s.data.count '-'

/-- `Session.MessageCount` from `session.go`. -/
def Session.MessageCount (s : Session) : Nat := s.Messages.length

/-- `Session.AddMessage` from `session.go`: appends a message carrying a
fresh `time.Time` and bumps `UpdatedAt`. The two `time.Now()` calls of
the Go body are modelled as a single instant `t`. -/
def addMessage (s : Session) (role content : String) (t : Nat) : Session :=
  { s with
    Messages := s.Messages ++ [⟨role, content, .goTime t⟩],
    UpdatedAt := t }

/-- The error taxonomy of the identity resolver
(`internal/llmc/session/storage.go`). `ambiguous` carries the matching
sessions, as `AmbiguousIDError` does. -/
inductive FindErr where
  | invalidArgument
  | notFound
  | ambiguous (p : String) (ms : List Session)
deriving DecidableEq, Repr

/-- The ordering of `ListSessions` (`sort.Slice` with `UpdatedAt.After`):
newest first. -/
def sessGE (a b : Session) : Prop := b.UpdatedAt ≤ a.UpdatedAt

instance : DecidableRel sessGE := fun a b => Nat.decLe b.UpdatedAt a.UpdatedAt

instance : IsTotal Session sessGE := ⟨fun a b => Nat.le_total b.UpdatedAt a.UpdatedAt⟩

instance : IsTrans Session sessGE := ⟨fun _ _ _ h1 h2 => Nat.le_trans h2 h1⟩

/-- `ListSessions` from `storage.go`: every stored session, sorted by
`UpdatedAt` descending. The store is modelled as the list of sessions
held in the directory's readable files (corrupt files are skipped by the
Go code and hence absent from the model store). Go's `sort.Slice` is an
unstable sort whose tie order is unspecified; the model commits to one
sorted permutation (insertion sort). -/
def listSessions (store : List Session) : List Session :=
  store.insertionSort sessGE

/-- `LoadSession` from `storage.go`, at the store level: look up the file
named by the full identifier. -/
def loadSession (store : List Session) (id : String) : Except FindErr Session :=
  match store.find? (fun s => s.ID == id) with
  | some s => .ok s
  | none => .error .notFound

/-- `GetLatestSession` from `storage.go`: head of the sorted listing. -/
def getLatestSession (store : List Session) : Except FindErr Session :=
  match listSessions store with
  | [] => .error .notFound
  | s :: _ => .ok s

/-- `FindSessionByPrefix` from `storage.go`: the identity resolver. -/
def findSessionByPrefix (store : List Session) (p : String) : Except FindErr Session :=
  if p == "latest" then
    getLatestSession store
  else if goLen p < 4 then
    .error .invalidArgument
  else if goLen p == 36 && dashCount p == 4 then
    loadSession store p
  else
    match (listSessions store).filter (fun s => isIDPfx p s.ID) with
    | [] => .error .notFound
    | [s] => .ok s
    | ms => .error (.ambiguous p ms)

/-- A sample session used to instantiate witness theorems. -/
def mkSess (id parent : String) (created updated : Nat) : Session :=
  ⟨id, parent, "", "", "", "m", created, updated, []⟩

deriving instance DecidableEq for Except

/-- The error of the ancestry walker (`collectAncestorSessions` in
`cmd/sessions.go`): "circular reference detected in session ancestry". -/
inductive WalkErr where
  | cycleDetected
deriving DecidableEq, Repr

/-- Every prefix of a session identifier (including the identifier
itself), as strings. Only such strings, plus `"latest"`, can resolve
successfully, which bounds the number of iterations of the walker. -/
def prefixesOf (id : String) : List String :=
  (List.range (id.data.length + 1)).map (fun k => ⟨id.data.take k⟩)

/-- All strings that could possibly resolve against the store. -/
def feasibleList (store : List Session) : List String :=
  "latest" :: store.flatMap (fun s => prefixesOf s.ID)

/-- The loop of `collectAncestorSessions` (`cmd/sessions.go` lines
541-568), with an explicit fuel. `none` models non-termination (fuel
exhaustion); `collectGo_total` below shows the fuel used by
`collectAncestorSessions` never runs out. Per iteration: an empty id
ends the walk; an id already visited fails with `cycleDetected`; a
resolution failure ends the walk silently with the ancestors collected so
far; otherwise the found parent is prepended and the walk continues from
its parent reference. -/
def collectGo (store : List Session) :
    Nat → String → List String → List Session → Option (Except WalkErr (List Session))
  | 0, _, _, _ => none
  | fuel + 1, currentID, visited, acc =>
    if currentID = "" then
      some (.ok acc)
    else if currentID ∈ visited then
      some (.error .cycleDetected)
    else
      match findSessionByPrefix store currentID with
      | .error _ => some (.ok acc)
      | .ok parent => collectGo store fuel parent.ParentID (currentID :: visited) (parent :: acc)

/-- `collectAncestorSessions` from `cmd/sessions.go`: walk the parent
chain starting from `sess.ParentID`, returning the ancestors oldest
first. -/
def collectAncestorSessions (store : List Session) (sess : Session) :
    Option (Except WalkErr (List Session)) :=
  collectGo store ((feasibleList store).length + 1) sess.ParentID [] []

/-- Strings not yet recorded in the walker's visited set (used only to
measure the remaining fuel). -/
def notVisited (vis : List String) (x : String) : Bool := decide (x ∉ vis)

/-- Observable events of `sessions clear` (`sessionsClearCmd` in
`cmd/sessions.go`), in emission order. Message wording is not modelled,
only which message is printed and, for the protected-parents notice, the
identifiers listed. -/
inductive ClearEv where
  | noSessionsMsg
  | noneMatchedMsg (cutoff : Nat)
  | noticeProtected (ids : List String)
  | noneLeftMsg
  | prompt
  | cancelledMsg
  | failedDelete (id : String)
  | summary (deleted failed : Nat)
deriving DecidableEq, Repr

/-- Go's `toDeleteMap[id]` / `protectedParents[id]` membership tests: the
maps are keyed by session ID. -/
def idMem (l : List Session) (id : String) : Bool := l.any (fun s => s.ID == id)

/-- The candidate deletion set of `sessionsClearCmd`: the whole store
with `--all`, otherwise every session created strictly before the
cutoff (`CreatedAt.Before(beforeDate)`). -/
def buildCandidates (store : List Session) (deleteAll : Bool) (cutoff : Nat) :
    List Session :=
  if deleteAll then store else store.filter (fun s => decide (s.CreatedAt < cutoff))

/-- One row of the protection pass of `sessionsClearCmd` (lines 288-301):
a session that is not itself a deletion candidate but whose parent is
gets that parent recorded as protected. Go stores protected parents in a
map keyed by ID; the model keeps first-insertion order, which refines the
unspecified map iteration order. -/
def protStepF (cands : List Session) (acc : List Session) (s : Session) :
    List Session :=
  if idMem cands s.ID = false ∧ s.ParentID ≠ "" ∧ idMem cands s.ParentID = true then
    match cands.find? (fun q => q.ID == s.ParentID) with
    | some parent => if idMem acc parent.ID then acc else acc ++ [parent]
    | none => acc
  else acc

/-- The protected-parents set of `sessionsClearCmd`. -/
def protectedParents (store cands : List Session) : List Session :=
  store.foldl (protStepF cands) []

/-- `session.DeleteSession` at the store level: removing the file named
`id + ".json"` succeeds exactly when it exists. -/
def deleteSessionStore (store : List Session) (id : String) :
    List Session × Bool :=
  if idMem store id then (store.filter (fun s => !(s.ID == id)), true)
  else (store, false)

/-- One iteration of the deletion loop of `sessionsClearCmd` (lines
350-360): a failure is reported and counted but does not abort the
batch. -/
def deleteStepF (st : List Session × Nat × Nat × List ClearEv) (t : Session) :
    List Session × Nat × Nat × List ClearEv :=
  let (store, del, fail, evs) := st
  let (store2, okd) := deleteSessionStore store t.ID
  if okd then (store2, del + 1, fail, evs)
  else (store2, del, fail + 1, evs ++ [.failedDelete t.ID])

/-- The deletion loop of `sessionsClearCmd`. -/
def deleteLoop (store targets : List Session) :
    List Session × Nat × Nat × List ClearEv :=
  targets.foldl deleteStepF (store, 0, 0, [])

/-- The deletion list after the protection pass of `sessionsClearCmd`
(lines 303-311): protected parents are filtered out of the candidate set
(the Go code only filters when the protected set is non-empty; filtering
by an empty set is the identity, and both branches are kept). -/
def clearCands2 (store cands : List Session) : List Session :=
  if (protectedParents store cands).isEmpty then cands
  else cands.filter (fun s => !(idMem (protectedParents store cands) s.ID))

/-- The protected-parents notice of `sessionsClearCmd` (lines 313-319),
emitted before the confirmation prompt when the protected set is
non-empty. -/
def clearEv1 (store cands : List Session) : List ClearEv :=
  if (protectedParents store cands).isEmpty then []
  else [.noticeProtected ((protectedParents store cands).map (fun s => s.ID))]

/-- `sessionsClearCmd` from `cmd/sessions.go`: the retention manager.
`deleteAll` is the `--all` flag; `cutoff` is the parsed `--before`
instant or `now - retentionDays` in the default mode (both modes follow
the same path below); `resp` is the operator's reply to the confirmation
prompt. Returns the emitted events and the resulting store. -/
def clearRun (store : List Session) (deleteAll : Bool) (cutoff : Nat)
    (resp : String) : List ClearEv × List Session :=
  if store.isEmpty then
    ([.noSessionsMsg], store)
  else if deleteAll = false ∧ (buildCandidates store deleteAll cutoff).isEmpty then
    ([.noneMatchedMsg cutoff], store)
  else if (clearCands2 store (buildCandidates store deleteAll cutoff)).isEmpty then
    (clearEv1 store (buildCandidates store deleteAll cutoff) ++ [.noneLeftMsg],
      store)
  else if resp ≠ "y" ∧ resp ≠ "Y" then
    (clearEv1 store (buildCandidates store deleteAll cutoff) ++
      [.prompt, .cancelledMsg], store)
  else
    (clearEv1 store (buildCandidates store deleteAll cutoff) ++ [.prompt] ++
      (deleteLoop store (clearCands2 store (buildCandidates store deleteAll cutoff))).2.2.2 ++
      [.summary
        (deleteLoop store (clearCands2 store (buildCandidates store deleteAll cutoff))).2.1
        (deleteLoop store (clearCands2 store (buildCandidates store deleteAll cutoff))).2.2.1],
      (deleteLoop store (clearCands2 store (buildCandidates store deleteAll cutoff))).1)

/-- The threshold guard of `chatCmd` (`cmd/chat.go` lines 101-121).
Returns `(prompted, proceed)`: whether the warning and yes/no prompt were
shown, and whether the chat turn goes ahead. `threshold` is the
configured `session_message_threshold` (Go `int`, so `Int` here: a
non-positive value never trips the guard); `ignoreThr` is the
per-invocation `--ignore-threshold` flag. The guard reads the
configuration and never writes it, so the configured threshold is
unchanged by construction. -/
def thresholdGuard (threshold : Int) (msgCount : Nat) (ignoreThr : Bool)
    (resp : String) : Bool × Bool :=
  if threshold > 0 ∧ (msgCount : Int) ≥ threshold ∧ ignoreThr = false then
    (true, decide (resp = "y" ∨ resp = "Y"))
  else
    (false, true)

/-- `SaveSession` at the store level: overwrite the file keyed by the
session's full identifier, or create it. -/
def saveSessionStore (store : List Session) (s : Session) : List Session :=
  if idMem store s.ID then
    store.map (fun x => if x.ID == s.ID then s else x)
  else
    store ++ [s]

/-- One message turn of the interactive loop (`runInteractiveMode`,
`cmd/sessions.go` lines 691-721): the user message is appended; on a
provider error the just-appended message is sliced back off and nothing
is saved; on success the assistant reply is appended and the session is
saved. `tU`/`tA` are the instants of the two `AddMessage` calls; `resp`
is the provider call's outcome. Returns the in-memory session and the
store after the turn. -/
def interactiveTurn (store : List Session) (sess : Session) (input : String)
    (tU tA : Nat) (resp : Except Unit String) : Session × List Session :=
  match resp with
  | .error _ =>
      ({ addMessage sess "user" input tU with
          Messages := (addMessage sess "user" input tU).Messages.dropLast },
        store)
  | .ok r =>
      (addMessage (addMessage sess "user" input tU) "assistant" r tA,
        saveSessionStore store
          (addMessage (addMessage sess "user" input tU) "assistant" r tA))

/-- Numeric value of a digit character (Go's parser arithmetic). -/
def dVal (c : Char) : Nat := c.toNat - '0'.toNat

/-- The digit character for `n < 10`. -/
def digitChar (n : Nat) : Char := Char.ofNat ('0'.toNat + n)

/-- Gregorian leap years, as Go's `time` package computes them. -/
def isLeapYear (y : Nat) : Bool := (y % 4 == 0 && y % 100 != 0) || y % 400 == 0

/-- Days in a month, as Go's `time` package computes them (used by the
stdlib parser's "day out of range for month" check). -/
def daysInMonth (y m : Nat) : Nat :=
  if m = 2 then (if isLeapYear y then 29 else 28)
  else if m = 4 ∨ m = 6 ∨ m = 9 ∨ m = 11 then 30
  else 31

/-- A parsed calendar date. Go's `time.Parse` fills unspecified fields
with their defaults (month 1, day 1, midnight), which anchors each input
precision to the first instant of its period; the clock part is always
midnight here and is omitted. -/
structure GoDate where
  y : Nat
  m : Nat
  d : Nat
deriving DecidableEq, Repr

/-- Go `time.Parse("2006-01-02", s)`: exactly four year digits, a dash,
two month digits, a dash, two day digits, with the stdlib's
"month out of range" and "day out of range for month" validation.
(Go's layout `2006` also accepts a leading minus for negative years;
that corner is outside this model.) -/
def tryParseYMD (s : String) : Option GoDate :=
  match s.data with
  | [y1, y2, y3, y4, c1, m1, m2, c2, d1, d2] =>
    if c1 = '-' ∧ c2 = '-' ∧ y1.isDigit ∧ y2.isDigit ∧ y3.isDigit ∧
        y4.isDigit ∧ m1.isDigit ∧ m2.isDigit ∧ d1.isDigit ∧ d2.isDigit then
      if 1 ≤ dVal m1 * 10 + dVal m2 ∧ dVal m1 * 10 + dVal m2 ≤ 12 ∧
          1 ≤ dVal d1 * 10 + dVal d2 ∧
          dVal d1 * 10 + dVal d2 ≤
            daysInMonth
              (dVal y1 * 1000 + dVal y2 * 100 + dVal y3 * 10 + dVal y4)
              (dVal m1 * 10 + dVal m2) then
        some ⟨dVal y1 * 1000 + dVal y2 * 100 + dVal y3 * 10 + dVal y4,
          dVal m1 * 10 + dVal m2, dVal d1 * 10 + dVal d2⟩
      else none
    else none
  | _ => none

/-- Go `time.Parse("2006-01", s)`: year, dash, month; the day defaults to
the first of the month. -/
def tryParseYM (s : String) : Option GoDate :=
  match s.data with
  | [y1, y2, y3, y4, c1, m1, m2] =>
    if c1 = '-' ∧ y1.isDigit ∧ y2.isDigit ∧ y3.isDigit ∧ y4.isDigit ∧
        m1.isDigit ∧ m2.isDigit then
      if 1 ≤ dVal m1 * 10 + dVal m2 ∧ dVal m1 * 10 + dVal m2 ≤ 12 then
        some ⟨dVal y1 * 1000 + dVal y2 * 100 + dVal y3 * 10 + dVal y4,
          dVal m1 * 10 + dVal m2, 1⟩
      else none
    else none
  | _ => none

/-- Go `time.Parse("2006", s)`: a four-digit year; month and day default
to January 1. -/
def tryParseY (s : String) : Option GoDate :=
  match s.data with
  | [y1, y2, y3, y4] =>
    if y1.isDigit ∧ y2.isDigit ∧ y3.isDigit ∧ y4.isDigit then
      some ⟨dVal y1 * 1000 + dVal y2 * 100 + dVal y3 * 10 + dVal y4, 1, 1⟩
    else none
  | _ => none

/-- `parseDate` from `cmd/sessions.go`: try `YYYY-MM-DD`, then `YYYY-MM`,
then `YYYY`; anything else is an invalid-argument error. -/
def parseDate (s : String) : Except Unit GoDate :=
  match tryParseYMD s with
  | some d => .ok d
  | none =>
    match tryParseYM s with
    | some d => .ok d
    | none =>
      match tryParseY s with
      | some d => .ok d
      | none => .error ()

/-- Four-digit zero-padded decimal rendering (for stating which strings
the date parser accepts). -/
def pad4 (n : Nat) : List Char :=
  [digitChar (n / 1000 % 10), digitChar (n / 100 % 10),
    digitChar (n / 10 % 10), digitChar (n % 10)]

/-- Two-digit zero-padded decimal rendering. -/
def pad2 (n : Nat) : List Char :=
  [digitChar (n / 10 % 10), digitChar (n % 10)]

/-- The text `YYYY-MM-DD`. -/
def renderYMD (y m d : Nat) : String :=
  ⟨pad4 y ++ ['-'] ++ pad2 m ++ ['-'] ++ pad2 d⟩

/-- The text `YYYY-MM`. -/
def renderYM (y m : Nat) : String :=
  ⟨pad4 y ++ ['-'] ++ pad2 m⟩

/-- The text `YYYY`. -/
def renderY (y : Nat) : String :=
  ⟨pad4 y⟩

/-- The JSON documents produced and consumed by `SaveSession` /
`LoadSession` (`encoding/json` on the `Session` struct). Only the forms
reachable from that struct are modelled: strings (`JStr`), arrays,
objects and `null`; numbers never occur because every field is a string,
a time (serialized as a string), a nested struct or a list. -/
inductive Json where
  | null
  | str (s : JStr)
  | arr (xs : List Json)
  | obj (fields : List (String × Json))

/-- `json.Marshal` of the dynamically typed message timestamp: a
`time.Time` marshals through its `MarshalJSON` (an RFC3339 string), a
string marshals as itself, `nil` as `null`. -/
def encodeTimeVal : TimeVal → Json
  | .goTime n => .str (.timeRendered n)
  | .goString js => .str js
  | .goNil => .null

/-- `json.Marshal` of one message (struct tags `role` / `content` /
`timestamp` taken from the rendered session files). -/
def encodeMessage (m : Message) : Json :=
  .obj [("role", .str (.plain m.Role)), ("content", .str (.plain m.Content)),
    ("timestamp", encodeTimeVal m.Timestamp)]

/-- `json.MarshalIndent` of a session, per the struct tags in
`session.go` (indentation is presentation only and is not modelled). -/
def encodeSession (s : Session) : Json :=
  .obj [("id", .str (.plain s.ID)), ("parent_id", .str (.plain s.ParentID)),
    ("name", .str (.plain s.Name)),
    ("template_name", .str (.plain s.TemplateName)),
    ("system_prompt", .str (.plain s.SystemPrompt)),
    ("model", .str (.plain s.Model)),
    ("created_at", .str (.timeRendered s.CreatedAt)),
    ("updated_at", .str (.timeRendered s.UpdatedAt)),
    ("messages", .arr (s.Messages.map encodeMessage))]

/-- Key lookup in a JSON object (the encoder never emits duplicate
keys). -/
def getField (fields : List (String × Json)) (name : String) : Option Json :=
  (fields.find? (fun f => f.1 == name)).map (fun f => f.2)

/-- `json.Unmarshal` into a Go `string` field: a missing key or `null`
leaves the zero value; a JSON string is taken verbatim. (A stdlib-
rendered timestamp string landing in a plain string field is outside the
model, which assigns no concrete text to `timeRendered`; the encoder
never produces that case.) -/
def decodeGoString : Option Json → Option String
  | none => some ""
  | some .null => some ""
  | some (.str (.plain s)) => some s
  | some _ => none

/-- `json.Unmarshal` into a `time.Time` field: a missing key or `null`
leaves the zero instant; a stdlib-rendered timestamp string parses back
to its instant (the stdlib round-trip guarantee); an arbitrary plain
string is not assumed to be valid RFC3339. -/
def decodeGoTime : Option Json → Option Nat
  | none => some 0
  | some .null => some 0
  | some (.str (.timeRendered n)) => some n
  | some _ => none

/-- `json.Unmarshal` into the dynamically typed timestamp field
(`interface{}`): a JSON string decodes to a Go string, `null` to `nil`.
(Arrays and objects would decode to generic Go slices/maps, which
`TimeVal` does not represent; the encoder never produces them here.) -/
def decodeTimeVal : Option Json → Option TimeVal
  | none => some .goNil
  | some .null => some .goNil
  | some (.str js) => some (.goString js)
  | some _ => none

/-- `json.Unmarshal` of one message. -/
def decodeMessage : Json → Option Message
  | .obj fields => do
      let r ← decodeGoString (getField fields "role")
      let c ← decodeGoString (getField fields "content")
      let t ← decodeTimeVal (getField fields "timestamp")
      some ⟨r, c, t⟩
  | _ => none

/-- `json.Unmarshal` into the `Messages` slice: missing or `null` gives
the empty history. -/
def decodeMessages : Option Json → Option (List Message)
  | none => some []
  | some .null => some []
  | some (.arr xs) => xs.mapM decodeMessage
  | some _ => none

/-- `json.Unmarshal` of a whole session file. -/
def decodeSession : Json → Option Session
  | .obj fields => do
      let i ← decodeGoString (getField fields "id")
      let p ← decodeGoString (getField fields "parent_id")
      let n ← decodeGoString (getField fields "name")
      let tn ← decodeGoString (getField fields "template_name")
      let sp ← decodeGoString (getField fields "system_prompt")
      let mo ← decodeGoString (getField fields "model")
      let ca ← decodeGoTime (getField fields "created_at")
      let ua ← decodeGoTime (getField fields "updated_at")
      let ms ← decodeMessages (getField fields "messages")
      some ⟨i, p, n, tn, sp, mo, ca, ua, ms⟩
  | _ => none

/-- The errors of `LoadSession` at the file level. -/
inductive LoadErr where
  | notFound
  | corrupt
deriving DecidableEq, Repr

/-- `SaveSession` at the file level: the directory maps file stems to
JSON documents; the write overwrites the file named by the session's ID
or creates it. -/
def saveSessionFile (dir : List (String × Json)) (s : Session) :
    List (String × Json) :=
  if dir.any (fun e => e.1 == s.ID) then
    dir.map (fun e => if e.1 == s.ID then (s.ID, encodeSession s) else e)
  else dir ++ [(s.ID, encodeSession s)]

/-- `LoadSession` at the file level: a missing file is `notFound`, an
unparseable one is `corrupt`. -/
def loadSessionFile (dir : List (String × Json)) (id : String) :
    Except LoadErr Session :=
  match (dir.find? (fun e => e.1 == id)).map (fun e => e.2) with
  | none => .error .notFound
  | some j =>
    match decodeSession j with
    | some s => .ok s
    | none => .error .corrupt

/-- What a dynamically typed timestamp looks like after one
save-and-load: a `time.Time` comes back as its serialized string. -/
def loadedTimeVal : TimeVal → TimeVal
  | .goTime n => .goString (.timeRendered n)
  | .goString js => .goString js
  | .goNil => .goNil

/-- A message after one save-and-load. -/
def loadedMessage (m : Message) : Message :=
  { m with Timestamp := loadedTimeVal m.Timestamp }

/-- A session after one save-and-load: every session-level field is
recovered exactly; message timestamps change representation. -/
def loadedSession (s : Session) : Session :=
  { s with Messages := s.Messages.map loadedMessage }

theorem listSessions_perm (store : List Session) :
    List.Perm (listSessions store) store :=
  List.perm_insertionSort sessGE store

theorem filter_listSessions_perm (store : List Session) (f : Session → Bool) :
    List.Perm ((listSessions store).filter f) (store.filter f) :=
  (listSessions_perm store).filter f

theorem findSessionByPrefix_eq_scan (store : List Session) (p : String)
    (hlat : p ≠ "latest") (hlen : 4 ≤ goLen p)
    (hshape : ¬(goLen p = 36 ∧ dashCount p = 4)) :
    findSessionByPrefix store p =
      match (listSessions store).filter (fun s => isIDPfx p s.ID) with
      | [] => .error .notFound
      | [s] => .ok s
      | ms => .error (.ambiguous p ms) := by
  have h1 : ¬((p == "latest") = true) := by simp [hlat]
  have h2 : ¬(goLen p < 4) := by omega
  have h3 : ¬(((goLen p == 36) && (dashCount p == 4)) = true) := by
    simp only [Bool.and_eq_true, beq_iff_eq]
    exact hshape
  unfold findSessionByPrefix
  rw [if_neg h1, if_neg h2, if_neg h3]

/-- C1 (amended): prefix resolution measured in bytes, as Go `len` does.
For every store and identifier string that is not `"latest"`, not
full-identifier shaped (36 bytes with 4 dashes), and at least 4 bytes
long: exactly one stored session whose ID starts with the string resolves
to that session, zero matches yield `notFound`, two or more yield
`ambiguous` carrying precisely the matching set (up to the listing
order); and every input shorter than 4 bytes fails with
`invalidArgument`. -/
theorem C1_prefix_resolution (store : List Session) (p : String)
    (hlat : p ≠ "latest")
    (hshape : ¬(goLen p = 36 ∧ dashCount p = 4))
    (hlen : 4 ≤ goLen p) :
    ((store.filter (fun s => isIDPfx p s.ID) = [] →
        findSessionByPrefix store p = .error .notFound) ∧
      (∀ s, store.filter (fun s => isIDPfx p s.ID) = [s] →
        findSessionByPrefix store p = .ok s) ∧
      (2 ≤ (store.filter (fun s => isIDPfx p s.ID)).length →
        ∃ ms, findSessionByPrefix store p = .error (.ambiguous p ms) ∧
          List.Perm ms (store.filter (fun s => isIDPfx p s.ID)))) ∧
    (∀ q : String, goLen q < 4 →
      findSessionByPrefix store q = .error .invalidArgument) := by
  have hscan := findSessionByPrefix_eq_scan store p hlat hlen hshape
  have hperm := filter_listSessions_perm store (fun s => isIDPfx p s.ID)
  refine ⟨⟨?_, ?_, ?_⟩, ?_⟩
  · intro hnil
    rw [hnil] at hperm
    rw [hscan, List.perm_nil.mp hperm]
  · intro s hone
    rw [hone] at hperm
    rw [hscan, List.perm_singleton.mp hperm]
  · intro hlen2
    rw [← hperm.length_eq] at hlen2
    match hm : (listSessions store).filter (fun s => isIDPfx p s.ID) with
    | [] => rw [hm] at hlen2; simp at hlen2
    | [s] => rw [hm] at hlen2; simp at hlen2
    | a :: b :: t =>
        rw [hm] at hperm
        exact ⟨a :: b :: t, by rw [hscan, hm], hperm⟩
  · intro q hq
    have hqlat : ¬((q == "latest") = true) := by
      simp only [beq_iff_eq]
      intro h
      subst h
      revert hq
      decide
    unfold findSessionByPrefix
    rw [if_neg hqlat, if_pos hq]

/-- C1 counterexample to the claim as stated: the minimum-length check of
`FindSessionByPrefix` measures Go `len` (bytes), not characters. The
input `"éé"` is 2 characters long, so the claim requires
`InvalidArgument`, but it is 4 bytes long, passes the length check, and
falls through to the prefix scan, failing with `NotFound` on an empty
store. -/
theorem C1_counterexample :
    ("éé" : String).length < 4 ∧
    findSessionByPrefix [] "éé" ≠ .error .invalidArgument ∧
    findSessionByPrefix [] "éé" = .error .notFound := by decide

/-- C1 witness: a store with one session whose ID starts with `"abcd"`,
resolved by that prefix. -/
theorem C1_witness :
    findSessionByPrefix [mkSess "abcd-efgh" "" 0 0] "abcd" =
      .ok (mkSess "abcd-efgh" "" 0 0) :=
  (C1_prefix_resolution [mkSess "abcd-efgh" "" 0 0] "abcd" (by decide)
      (by decide) (by decide)).1.2.1 (mkSess "abcd-efgh" "" 0 0) (by decide)

/-- C7: resolving the reserved keyword `"latest"` on a non-empty store
returns a stored session whose `UpdatedAt` is maximal over the store; on
an empty store it fails with `notFound`. -/
theorem C7_latest_resolution (store : List Session) :
    (store = [] → findSessionByPrefix store "latest" = .error .notFound) ∧
    (store ≠ [] → ∃ s, findSessionByPrefix store "latest" = .ok s ∧
      s ∈ store ∧ ∀ t ∈ store, t.UpdatedAt ≤ s.UpdatedAt) := by
  have hfind : findSessionByPrefix store "latest" = getLatestSession store := by
    unfold findSessionByPrefix
    rw [if_pos (by simp)]
  constructor
  · rintro rfl
    rfl
  · intro h
    cases hl : listSessions store with
    | nil =>
        exfalso
        have hperm := listSessions_perm store
        rw [hl] at hperm
        exact h (List.perm_nil.mp hperm.symm)
    | cons s t =>
        have hperm := listSessions_perm store
        rw [hl] at hperm
        refine ⟨s, ?_, ?_, ?_⟩
        · rw [hfind]
          unfold getLatestSession
          rw [hl]
        · exact hperm.subset (List.mem_cons_self s t)
        · intro x hx
          have hx' : x ∈ s :: t := hperm.mem_iff.mpr hx
          have hsorted : List.Sorted sessGE (listSessions store) :=
            List.sorted_insertionSort sessGE store
          rw [hl] at hsorted
          rcases List.mem_cons.mp hx' with rfl | hxt
          · exact Nat.le_refl _
          · exact List.rel_of_sorted_cons hsorted x hxt

/-- C7 witness: a singleton store resolved through `"latest"`. -/
theorem C7_witness :
    ∃ s, findSessionByPrefix [mkSess "aaaa-1" "" 0 5] "latest" = .ok s ∧
      s ∈ [mkSess "aaaa-1" "" 0 5] ∧
      ∀ t ∈ [mkSess "aaaa-1" "" 0 5], t.UpdatedAt ≤ s.UpdatedAt :=
  (C7_latest_resolution [mkSess "aaaa-1" "" 0 5]).2 (by decide)

theorem mem_prefixesOf {p id : String} (h : p.data <+: id.data) : p ∈ prefixesOf id := by
  refine List.mem_map.mpr ⟨p.data.length, List.mem_range.mpr ?_, ?_⟩
  · have := h.length_le
    omega
  · rw [← List.prefix_iff_eq_take.mp h]

theorem mem_feasible_of_find_ok (store : List Session) (cur : String) (s : Session)
    (h : findSessionByPrefix store cur = .ok s) : cur ∈ feasibleList store := by
  unfold findSessionByPrefix at h
  by_cases hlat : (cur == "latest") = true
  · simp only [beq_iff_eq] at hlat
    subst hlat
    exact List.mem_cons_self _ _
  · rw [if_neg hlat] at h
    by_cases hlen : goLen cur < 4
    · rw [if_pos hlen] at h
      exact absurd h (by simp)
    · rw [if_neg hlen] at h
      by_cases hsh : ((goLen cur == 36) && (dashCount cur == 4)) = true
      · rw [if_pos hsh] at h
        unfold loadSession at h
        cases hf : store.find? (fun t => t.ID == cur) with
        | none => rw [hf] at h; exact absurd h (by simp)
        | some t =>
            have ht : t ∈ store := List.mem_of_find?_eq_some hf
            have hid : t.ID = cur := by
              have := List.find?_some hf
              simpa using this
            refine List.mem_cons.mpr (Or.inr (List.mem_flatMap.mpr ⟨t, ht, ?_⟩))
            rw [← hid]
            exact mem_prefixesOf (List.prefix_refl _)
      · rw [if_neg hsh] at h
        cases hm : (listSessions store).filter (fun t => isIDPfx cur t.ID) with
        | nil => rw [hm] at h; exact absurd h (by simp)
        | cons a tl =>
            have ha : a ∈ (listSessions store).filter (fun t => isIDPfx cur t.ID) := by
              rw [hm]; exact List.mem_cons_self a tl
            have ha' := List.mem_filter.mp ha
            have hamem : a ∈ store := (listSessions_perm store).subset ha'.1
            have hpfx : isIDPfx cur a.ID = true := ha'.2
            refine List.mem_cons.mpr (Or.inr (List.mem_flatMap.mpr ⟨a, hamem, ?_⟩))
            exact mem_prefixesOf (List.isPrefixOf_iff_prefix.mp hpfx)

theorem length_filter_impl {α : Type} (p q : α → Bool)
    (himp : ∀ x, p x = true → q x = true) :
    ∀ l : List α, (l.filter p).length ≤ (l.filter q).length := by
  intro l
  induction l with
  | nil => simp
  | cons b t ih =>
      by_cases hp : p b = true
      · rw [List.filter_cons_of_pos hp, List.filter_cons_of_pos (himp b hp)]
        simpa using ih
      · rw [List.filter_cons_of_neg (by simpa using hp)]
        by_cases hq : q b = true
        · rw [List.filter_cons_of_pos hq]
          simp
          omega
        · rw [List.filter_cons_of_neg (by simpa using hq)]
          exact ih

theorem length_filter_cons_lt {l vis : List String} {a : String}
    (hal : a ∈ l) (hav : a ∉ vis) :
    (l.filter (notVisited (a :: vis))).length < (l.filter (notVisited vis)).length := by
  induction l with
  | nil => cases hal
  | cons b t ih =>
      by_cases hb : b = a
      · subst hb
        have h1 : ¬(notVisited (b :: vis) b = true) := by
          unfold notVisited
          simp
        have h2 : notVisited vis b = true := by
          unfold notVisited
          simpa using hav
        rw [List.filter_cons_of_neg h1, List.filter_cons_of_pos h2]
        have hle := length_filter_impl (notVisited (b :: vis)) (notVisited vis)
          (by
            intro x hx
            unfold notVisited at hx ⊢
            simp only [decide_eq_true_eq] at hx ⊢
            exact fun hmem => hx (List.mem_cons_of_mem _ hmem)) t
        simp only [List.length_cons]
        omega
      · have hat : a ∈ t := by
          rcases List.mem_cons.mp hal with h | h
          · exact absurd h.symm hb
          · exact h
        by_cases hbv : b ∈ vis
        · have h1 : ¬(notVisited (a :: vis) b = true) := by
            unfold notVisited
            simp only [decide_eq_true_eq, not_not, List.mem_cons]
            exact Or.inr hbv
          have h2 : ¬(notVisited vis b = true) := by
            unfold notVisited
            simp only [decide_eq_true_eq, not_not]
            exact hbv
          rw [List.filter_cons_of_neg h1, List.filter_cons_of_neg h2]
          exact ih hat
        · have h1 : notVisited (a :: vis) b = true := by
            unfold notVisited
            simp only [decide_eq_true_eq, List.mem_cons, not_or]
            exact ⟨hb, hbv⟩
          have h2 : notVisited vis b = true := by
            unfold notVisited
            simpa using hbv
          rw [List.filter_cons_of_pos h1, List.filter_cons_of_pos h2]
          simp only [List.length_cons]
          have := ih hat
          omega

theorem collectGo_total (store : List Session) :
    ∀ fuel visited cur acc,
      ((feasibleList store).filter (notVisited visited)).length < fuel →
      collectGo store fuel cur visited acc ≠ none := by
  intro fuel
  induction fuel with
  | zero => intro _ _ _ h; omega
  | succ n ih =>
      intro visited cur acc h
      by_cases hc : cur = ""
      · simp [collectGo, hc]
      · by_cases hv : cur ∈ visited
        · simp [collectGo, hc, hv]
        · cases hf : findSessionByPrefix store cur with
          | error e => simp [collectGo, hc, hv, hf]
          | ok parent =>
              have hcf := mem_feasible_of_find_ok store cur parent hf
              have hdec := length_filter_cons_lt hcf hv
              have hlt : ((feasibleList store).filter
                  (notVisited (cur :: visited))).length < n := by omega
              simp only [collectGo, if_neg hc, if_neg hv, hf]
              exact ih (cur :: visited) parent.ParentID (parent :: acc) hlt

theorem collectGo_ok_empty (store : List Session) (n : Nat) (vis : List String)
    (acc : List Session) :
    collectGo store (n + 1) "" vis acc = some (.ok acc) := by
  simp [collectGo]

theorem collectGo_cycle (store : List Session) (n : Nat) (cur : String)
    (vis : List String) (acc : List Session) (hne : cur ≠ "") (hv : cur ∈ vis) :
    collectGo store (n + 1) cur vis acc = some (.error .cycleDetected) := by
  simp [collectGo, hne, hv]

theorem collectGo_truncate (store : List Session) (n : Nat) (cur : String)
    (vis : List String) (acc : List Session) (e : FindErr) (hne : cur ≠ "")
    (hv : cur ∉ vis) (hf : findSessionByPrefix store cur = .error e) :
    collectGo store (n + 1) cur vis acc = some (.ok acc) := by
  simp [collectGo, hne, hv, hf]

theorem collectGo_step (store : List Session) (n : Nat) (cur : String)
    (vis : List String) (acc : List Session) (parent : Session) (hne : cur ≠ "")
    (hv : cur ∉ vis) (hf : findSessionByPrefix store cur = .ok parent) :
    collectGo store (n + 1) cur vis acc =
      collectGo store n parent.ParentID (cur :: vis) (parent :: acc) := by
  simp [collectGo, hne, hv, hf]

theorem find_empty_eq (store : List Session) :
    findSessionByPrefix store "" = .error .invalidArgument := by
  unfold findSessionByPrefix
  rw [if_neg (show ¬((("" : String) == "latest") = true) by decide),
    if_pos (show goLen "" < 4 by decide)]

theorem find_ok_ne_empty {store : List Session} {cur : String} {s : Session}
    (h : findSessionByPrefix store cur = .ok s) : cur ≠ "" := by
  intro he
  rw [he, find_empty_eq] at h
  exact Except.noConfusion h

theorem two_le_length_of_mem_of_mem {α : Type} {l : List α} {x y : α}
    (hx : x ∈ l) (hy : y ∈ l) (hxy : x ≠ y) : 2 ≤ l.length := by
  obtain ⟨s, t, rfl⟩ := List.append_of_mem hx
  rcases List.mem_append.mp hy with h | h
  · have := List.length_pos_of_mem h
    simp only [List.length_append, List.length_cons]
    omega
  · rcases List.mem_cons.mp h with h | h
    · exact absurd h.symm hxy
    · have := List.length_pos_of_mem h
      simp only [List.length_append, List.length_cons]
      omega

theorem collectAncestorSessions_total (store : List Session) (sess : Session) :
    collectAncestorSessions store sess ≠ none := by
  apply collectGo_total
  have he : (feasibleList store).filter (notVisited []) = feasibleList store := by
    simp [notVisited]
  rw [he]
  omega

/-- C4: the ancestry walker on a chain C→B→A (A the oldest, with no
parent) returns `[A, B]` oldest-first; and when an ancestor's parent
reference fails to resolve, the walk stops there and returns the
ancestors collected so far without failing the whole operation. -/
theorem C4_ancestry_walker (store : List Session) :
    (∀ c b a : Session,
      findSessionByPrefix store c.ParentID = .ok b →
      findSessionByPrefix store b.ParentID = .ok a →
      a.ParentID = "" →
      collectAncestorSessions store c = some (.ok [a, b])) ∧
    (∀ (c b : Session) (e : FindErr),
      findSessionByPrefix store c.ParentID = .ok b →
      findSessionByPrefix store b.ParentID = .error e →
      collectAncestorSessions store c = some (.ok [b])) := by
  constructor
  · intro c b a h1 h2 ha
    have hc1 : c.ParentID ≠ "" := find_ok_ne_empty h1
    have hb1 : b.ParentID ≠ "" := find_ok_ne_empty h2
    have hne : b.ParentID ≠ c.ParentID := by
      intro he
      rw [he, h1] at h2
      have hab : b = a := by
        injection h2
      rw [← hab] at ha
      exact hb1 ha
    have hx := mem_feasible_of_find_ok store c.ParentID b h1
    have hy := mem_feasible_of_find_ok store b.ParentID a h2
    have hL : 2 ≤ (feasibleList store).length :=
      two_le_length_of_mem_of_mem hy hx hne
    obtain ⟨k, hk⟩ : ∃ k, (feasibleList store).length + 1 = (k + 1) + 1 + 1 :=
      ⟨(feasibleList store).length - 2, by omega⟩
    unfold collectAncestorSessions
    rw [hk]
    rw [collectGo_step store ((k + 1) + 1) c.ParentID [] [] b hc1 (by simp) h1]
    rw [collectGo_step store (k + 1) b.ParentID [c.ParentID] [b] a hb1
      (by simpa using hne) h2]
    rw [ha]
    exact collectGo_ok_empty store k _ _
  · intro c b e h1 h2
    have hc1 : c.ParentID ≠ "" := find_ok_ne_empty h1
    have hb1 : b.ParentID ≠ c.ParentID := by
      intro he
      rw [he, h1] at h2
      exact Except.noConfusion h2
    have hx := mem_feasible_of_find_ok store c.ParentID b h1
    have hL : 1 ≤ (feasibleList store).length := List.length_pos_of_mem hx
    obtain ⟨k, hk⟩ : ∃ k, (feasibleList store).length + 1 = (k + 1) + 1 :=
      ⟨(feasibleList store).length - 1, by omega⟩
    unfold collectAncestorSessions
    rw [hk]
    rw [collectGo_step store (k + 1) c.ParentID [] [] b hc1 (by simp) h1]
    by_cases hbe : b.ParentID = ""
    · rw [hbe] at h2
      rw [find_empty_eq] at h2
      have : e = FindErr.invalidArgument := by
        injection h2.symm
      rw [hbe]
      exact collectGo_ok_empty store k _ _
    · exact collectGo_truncate store k b.ParentID [c.ParentID] [b] e hbe
        (by simpa using hb1) h2

/-- C4 witness: the concrete chain A←B←C evaluated end to end. -/
theorem C4_witness :
    collectAncestorSessions
      [mkSess "aaaa-1" "" 0 0, mkSess "bbbb-1" "aaaa-1" 0 0,
        mkSess "cccc-1" "bbbb-1" 0 0]
      (mkSess "cccc-1" "bbbb-1" 0 0) =
      some (.ok [mkSess "aaaa-1" "" 0 0, mkSess "bbbb-1" "aaaa-1" 0 0]) :=
  (C4_ancestry_walker
    [mkSess "aaaa-1" "" 0 0, mkSess "bbbb-1" "aaaa-1" 0 0,
      mkSess "cccc-1" "bbbb-1" 0 0]).1
    (mkSess "cccc-1" "bbbb-1" 0 0) (mkSess "bbbb-1" "aaaa-1" 0 0)
    (mkSess "aaaa-1" "" 0 0) (by decide) (by decide) (by decide)

/-- C5: the ancestry walker terminates on every store, cyclic parent
references included (the fuel provided by `collectAncestorSessions` is
never exhausted), and on encountering an identifier already visited the
walk fails with `cycleDetected`; in particular a parent chain that
returns to its starting identifier (such as a self-reference A←A) ends
with `cycleDetected` rather than looping. -/
theorem C5_cycle_detection (store : List Session) :
    (∀ sess : Session, collectAncestorSessions store sess ≠ none) ∧
    (∀ (fuel : Nat) (cur : String) (visited : List String) (acc : List Session),
      cur ≠ "" → cur ∈ visited →
      collectGo store (fuel + 1) cur visited acc = some (.error .cycleDetected)) ∧
    (∀ sess p : Session,
      findSessionByPrefix store sess.ParentID = .ok p →
      p.ParentID = sess.ParentID →
      collectAncestorSessions store sess = some (.error .cycleDetected)) := by
  refine ⟨collectAncestorSessions_total store, collectGo_cycle store, ?_⟩
  intro sess p h1 hp
  have hc1 : sess.ParentID ≠ "" := find_ok_ne_empty h1
  have hx := mem_feasible_of_find_ok store sess.ParentID p h1
  have hL : 1 ≤ (feasibleList store).length := List.length_pos_of_mem hx
  obtain ⟨k, hk⟩ : ∃ k, (feasibleList store).length + 1 = (k + 1) + 1 :=
    ⟨(feasibleList store).length - 1, by omega⟩
  unfold collectAncestorSessions
  rw [hk]
  rw [collectGo_step store (k + 1) sess.ParentID [] [] p hc1 (by simp) h1]
  rw [hp]
  exact collectGo_cycle store k sess.ParentID [sess.ParentID] [p] hc1
    (List.mem_cons_self _ _)

/-- C5 witness: a self-referencing session makes the walker report a
cycle. -/
theorem C5_witness :
    collectAncestorSessions [mkSess "aaaa-bbbb" "aaaa-bbbb" 0 0]
      (mkSess "aaaa-bbbb" "aaaa-bbbb" 0 0) = some (.error .cycleDetected) :=
  (C5_cycle_detection [mkSess "aaaa-bbbb" "aaaa-bbbb" 0 0]).2.2
    (mkSess "aaaa-bbbb" "aaaa-bbbb" 0 0) (mkSess "aaaa-bbbb" "aaaa-bbbb" 0 0)
    (by decide) (by decide)

theorem isEmpty_false_of_idMem {l : List Session} {x : String}
    (h : idMem l x = true) : l.isEmpty = false := by
  cases l with
  | nil => simp [idMem] at h
  | cons a t => rfl

theorem protStepF_shape (cands acc : List Session) (s : Session) :
    protStepF cands acc s = acc ∨
      ∃ parent, protStepF cands acc s = acc ++ [parent] := by
  unfold protStepF
  split
  · cases hf : cands.find? (fun q => q.ID == s.ParentID) with
    | none => exact Or.inl rfl
    | some parent =>
        show (if idMem acc parent.ID = true then acc else acc ++ [parent]) = acc ∨
          ∃ p2, (if idMem acc parent.ID = true then acc else acc ++ [parent]) =
            acc ++ [p2]
        by_cases hacc : idMem acc parent.ID = true
        · rw [if_pos hacc]; exact Or.inl rfl
        · rw [if_neg hacc]; exact Or.inr ⟨parent, rfl⟩
  · exact Or.inl rfl

theorem idMem_protStepF_mono {cands acc : List Session} {s : Session} {x : String}
    (h : idMem acc x = true) : idMem (protStepF cands acc s) x = true := by
  rcases protStepF_shape cands acc s with he | ⟨parent, he⟩ <;> rw [he]
  · exact h
  · unfold idMem at h ⊢
    rw [List.any_append]
    simp [h]

theorem idMem_foldl_protStepF (cands : List Session) (l : List Session) :
    ∀ acc x, idMem acc x = true →
      idMem (l.foldl (protStepF cands) acc) x = true := by
  induction l with
  | nil => intro acc x h; simpa using h
  | cons a t ih => intro acc x h; exact ih _ x (idMem_protStepF_mono h)

theorem idMem_protStepF_trigger {cands : List Session} (acc : List Session)
    {S : Session} (h1 : idMem cands S.ID = false) (h2 : S.ParentID ≠ "")
    (h3 : idMem cands S.ParentID = true) :
    idMem (protStepF cands acc S) S.ParentID = true := by
  unfold protStepF
  rw [if_pos ⟨h1, h2, h3⟩]
  cases hf : cands.find? (fun q => q.ID == S.ParentID) with
  | none =>
      exfalso
      have hall := List.find?_eq_none.mp hf
      unfold idMem at h3
      rcases List.any_eq_true.mp h3 with ⟨q, hq, hqe⟩
      exact hall q hq hqe
  | some parent =>
      show idMem (if idMem acc parent.ID = true then acc else acc ++ [parent])
        S.ParentID = true
      have hpid : parent.ID = S.ParentID := by
        have := List.find?_some hf
        simpa using this
      by_cases hacc : idMem acc parent.ID = true
      · rw [if_pos hacc, ← hpid]
        exact hacc
      · rw [if_neg hacc]
        unfold idMem
        rw [List.any_append]
        simp [hpid]

theorem idMem_protectedParents {store cands : List Session} {S : Session}
    (hS : S ∈ store) (h1 : idMem cands S.ID = false) (h2 : S.ParentID ≠ "")
    (h3 : idMem cands S.ParentID = true) :
    idMem (protectedParents store cands) S.ParentID = true := by
  obtain ⟨u, v, rfl⟩ := List.append_of_mem hS
  unfold protectedParents
  rw [List.foldl_append, List.foldl_cons]
  exact idMem_foldl_protStepF cands v _ _ (idMem_protStepF_trigger _ h1 h2 h3)

theorem deleteSessionStore_fst (store : List Session) (id : String) :
    (deleteSessionStore store id).1 = store.filter (fun s => !(s.ID == id)) := by
  unfold deleteSessionStore
  by_cases h : idMem store id = true
  · rw [if_pos h]
  · rw [if_neg h]
    have hall : ∀ s ∈ store, (!(s.ID == id)) = true := by
      intro s hs
      unfold idMem at h
      have h2 := List.any_eq_false.mp (eq_false_of_ne_true h) s hs
      simpa using h2
    exact (List.filter_eq_self.mpr hall).symm

theorem deleteStepF_fst (st : List Session × Nat × Nat × List ClearEv)
    (t : Session) :
    (deleteStepF st t).1 = st.1.filter (fun s => !(s.ID == t.ID)) := by
  obtain ⟨store, del, fail, evs⟩ := st
  cases hd : deleteSessionStore store t.ID with
  | mk store2 okd =>
      have h2 : store2 = store.filter (fun s => !(s.ID == t.ID)) := by
        have := deleteSessionStore_fst store t.ID
        rw [hd] at this
        exact this
      cases okd <;> simp [deleteStepF, hd, h2]

theorem foldl_deleteStepF_fst (targets : List Session) :
    ∀ st : List Session × Nat × Nat × List ClearEv,
      (targets.foldl deleteStepF st).1 =
        st.1.filter (fun s => !(idMem targets s.ID)) := by
  induction targets with
  | nil =>
      intro st
      simp [idMem]
  | cons t ts ih =>
      intro st
      rw [List.foldl_cons, ih (deleteStepF st t), deleteStepF_fst st t,
        List.filter_filter]
      apply List.filter_congr
      intro a _
      by_cases hid : a.ID = t.ID
      · simp [idMem, List.any_cons, hid]
      · have h1 : (a.ID == t.ID) = false := by simp [hid]
        have h2 : (t.ID == a.ID) = false := by simp [Ne.symm hid]
        simp [idMem, List.any_cons, h1, h2]

theorem deleteLoop_fst (store targets : List Session) :
    (deleteLoop store targets).1 = store.filter (fun s => !(idMem targets s.ID)) := by
  unfold deleteLoop
  exact foldl_deleteStepF_fst targets (store, 0, 0, [])

theorem buildCandidates_false_eq (store : List Session) (cutoff : Nat) :
    buildCandidates store false cutoff =
      store.filter (fun s => decide (s.CreatedAt < cutoff)) := by
  unfold buildCandidates
  rfl

/-- C2: retention cleanup protects the parent of a retained session: if
`S` is not a deletion candidate under the cutoff while its parent `P` is,
then `P` is recorded as protected, the protected identifiers are reported
ahead of everything else the command prints (in particular ahead of the
confirmation prompt), `P` survives the run, and (on a confirming reply)
every candidate that is not a protected parent is deleted. The concrete
10/40/100-day scenario with a 30-day window (now = 100 ticks, one tick
per day, cutoff 70): only the 40-day session is deleted, the 100-day
session is protected, the 10-day session is untouched. -/
theorem C2_parent_protection :
    (∀ (store : List Session) (cutoff : Nat) (resp : String) (S P : Session),
      (store.map (fun s => s.ID)).Nodup →
      S ∈ store → P ∈ store →
      ¬(S.CreatedAt < cutoff) → S.ParentID = P.ID → P.ID ≠ "" →
      P.CreatedAt < cutoff →
      (idMem (protectedParents store (buildCandidates store false cutoff)) P.ID
          = true ∧
        (∃ rest, (clearRun store false cutoff resp).1 =
          ClearEv.noticeProtected
            ((protectedParents store (buildCandidates store false cutoff)).map
              (fun s => s.ID)) :: rest) ∧
        P ∈ (clearRun store false cutoff resp).2 ∧
        ((resp = "y" ∨ resp = "Y") → ∀ Q ∈ store, Q.CreatedAt < cutoff →
          idMem (protectedParents store (buildCandidates store false cutoff)) Q.ID
            = false →
          Q ∉ (clearRun store false cutoff resp).2))) ∧
    clearRun
      [mkSess "aaaa-1" "cccc-1" 90 90, mkSess "bbbb-1" "" 60 60,
        mkSess "cccc-1" "" 0 0] false 70 "y" =
      ([ClearEv.noticeProtected ["cccc-1"], ClearEv.prompt, ClearEv.summary 1 0],
        [mkSess "aaaa-1" "cccc-1" 90 90, mkSess "cccc-1" "" 0 0]) := by
  refine ⟨?_, by decide⟩
  intro store cutoff resp S P hnd hS hP hSold hSP hPid hPold
  have hbc := buildCandidates_false_eq store cutoff
  have hPc : P ∈ buildCandidates store false cutoff := by
    rw [hbc]
    exact List.mem_filter.mpr ⟨hP, by simpa using hPold⟩
  have hScand : idMem (buildCandidates store false cutoff) S.ID = false := by
    apply eq_false_of_ne_true
    intro htrue
    unfold idMem at htrue
    rcases List.any_eq_true.mp htrue with ⟨q, hq, hqe⟩
    rw [hbc] at hq
    have hq1 := List.mem_filter.mp hq
    have hqid : q.ID = S.ID := by simpa using hqe
    have hqS : q = S := List.inj_on_of_nodup_map hnd hq1.1 hS hqid
    rw [hqS] at hq1
    exact hSold (by simpa using hq1.2)
  have hPm : idMem (buildCandidates store false cutoff) S.ParentID = true := by
    unfold idMem
    exact List.any_eq_true.mpr ⟨P, hPc, by simp [hSP]⟩
  have hprot :
      idMem (protectedParents store (buildCandidates store false cutoff)) P.ID
        = true := by
    rw [← hSP]
    exact idMem_protectedParents hS hScand (by rw [hSP]; exact hPid) hPm
  have hpe :
      (protectedParents store (buildCandidates store false cutoff)).isEmpty
        = false := isEmpty_false_of_idMem hprot
  have hev1 : clearEv1 store (buildCandidates store false cutoff) =
      [ClearEv.noticeProtected
        ((protectedParents store (buildCandidates store false cutoff)).map
          (fun s => s.ID))] := by
    unfold clearEv1
    rw [if_neg (by simp [hpe])]
  have hc2eq : clearCands2 store (buildCandidates store false cutoff) =
      (buildCandidates store false cutoff).filter
        (fun s => !(idMem (protectedParents store
          (buildCandidates store false cutoff)) s.ID)) := by
    unfold clearCands2
    rw [if_neg (by simp [hpe])]
  have hPc2 : idMem (clearCands2 store (buildCandidates store false cutoff)) P.ID
      = false := by
    apply eq_false_of_ne_true
    intro ht
    unfold idMem at ht
    rcases List.any_eq_true.mp ht with ⟨q, hq, hqe⟩
    rw [hc2eq] at hq
    have hq' := List.mem_filter.mp hq
    have hqstore : q ∈ store := by
      have := hq'.1
      rw [hbc] at this
      exact (List.mem_filter.mp this).1
    have hqid : q.ID = P.ID := by simpa using hqe
    have hqP : q = P := List.inj_on_of_nodup_map hnd hqstore hP hqid
    have := hq'.2
    rw [hqP] at this
    simp [hprot] at this
  have h0 : store.isEmpty = false := by
    cases store with
    | nil => exact absurd hS (List.not_mem_nil S)
    | cons a t => rfl
  have h1 : ¬(false = false ∧
      (buildCandidates store false cutoff).isEmpty = true) := by
    intro hcon
    have hcne : (buildCandidates store false cutoff) ≠ [] :=
      List.ne_nil_of_mem hPc
    exact hcne (List.isEmpty_iff.mp hcon.2)
  unfold clearRun
  rw [if_neg (by simp [h0]), if_neg h1]
  by_cases hc2 : (clearCands2 store (buildCandidates store false cutoff)).isEmpty
      = true
  · rw [if_pos hc2]
    refine ⟨hprot, ⟨[ClearEv.noneLeftMsg], by rw [hev1]; rfl⟩, hP, ?_⟩
    intro _ Q hQ hQold hQprot
    exfalso
    have hQc : Q ∈ buildCandidates store false cutoff := by
      rw [hbc]
      exact List.mem_filter.mpr ⟨hQ, by simpa using hQold⟩
    have hQc2 : Q ∈ clearCands2 store (buildCandidates store false cutoff) := by
      rw [hc2eq]
      exact List.mem_filter.mpr ⟨hQc, by simp [hQprot]⟩
    exact (List.ne_nil_of_mem hQc2) (List.isEmpty_iff.mp hc2)
  · rw [if_neg hc2]
    by_cases hr : resp ≠ "y" ∧ resp ≠ "Y"
    · rw [if_pos hr]
      refine ⟨hprot, ⟨[ClearEv.prompt, ClearEv.cancelledMsg], by rw [hev1]; rfl⟩, hP,
        ?_⟩
      intro hresp _ _ _ _
      rcases hresp with h | h
      · exact absurd h hr.1
      · exact absurd h hr.2
    · rw [if_neg hr]
      refine ⟨hprot, ?_, ?_, ?_⟩
      · refine ⟨[ClearEv.prompt] ++
          (deleteLoop store (clearCands2 store (buildCandidates store false cutoff))).2.2.2 ++
          [ClearEv.summary
            (deleteLoop store (clearCands2 store (buildCandidates store false cutoff))).2.1
            (deleteLoop store (clearCands2 store (buildCandidates store false cutoff))).2.2.1],
          ?_⟩
        rw [hev1]
        rfl
      · show P ∈ (deleteLoop store
          (clearCands2 store (buildCandidates store false cutoff))).1
        rw [deleteLoop_fst]
        exact List.mem_filter.mpr ⟨hP, by simp [hPc2]⟩
      · intro _ Q hQ hQold hQprot
        show Q ∉ (deleteLoop store
          (clearCands2 store (buildCandidates store false cutoff))).1
        rw [deleteLoop_fst]
        intro hmem
        have hpred := (List.mem_filter.mp hmem).2
        have hQc : Q ∈ buildCandidates store false cutoff := by
          rw [hbc]
          exact List.mem_filter.mpr ⟨hQ, by simpa using hQold⟩
        have hQc2 : Q ∈ clearCands2 store (buildCandidates store false cutoff) := by
          rw [hc2eq]
          exact List.mem_filter.mpr ⟨hQc, by simp [hQprot]⟩
        have hQin : idMem (clearCands2 store (buildCandidates store false cutoff))
            Q.ID = true := by
          unfold idMem
          exact List.any_eq_true.mpr ⟨Q, hQc2, by simp⟩
        simp [hQin] at hpred

/-- C2 witness: in the 10/40/100-day scenario the protected 100-day
parent survives the run. -/
theorem C2_witness :
    mkSess "cccc-1" "" 0 0 ∈
      (clearRun [mkSess "aaaa-1" "cccc-1" 90 90, mkSess "bbbb-1" "" 60 60,
        mkSess "cccc-1" "" 0 0] false 70 "y").2 :=
  (C2_parent_protection.1
    [mkSess "aaaa-1" "cccc-1" 90 90, mkSess "bbbb-1" "" 60 60,
      mkSess "cccc-1" "" 0 0] 70 "y"
    (mkSess "aaaa-1" "cccc-1" 90 90) (mkSess "cccc-1" "" 0 0)
    (by decide) (by decide) (by decide) (by decide) (by decide) (by decide)
    (by decide)).2.2.1

/-- C10: parent protection is non-transitive. In the concrete store
S(retained, parent P) ← P(candidate, parent G) ← G(candidate), the
protection pass inspects only sessions outside the candidate set, so P's
row (a candidate) never protects G: the run reports only P as protected,
deletes G, and leaves the surviving P with a dangling parent reference
`"gggg-1"` that no stored session carries any more. -/
theorem C10_nontransitive_protection :
    clearRun [mkSess "ssss-1" "pppp-1" 90 90, mkSess "pppp-1" "gggg-1" 50 50,
        mkSess "gggg-1" "" 10 10] false 70 "y" =
      ([ClearEv.noticeProtected ["pppp-1"], ClearEv.prompt, ClearEv.summary 1 0],
        [mkSess "ssss-1" "pppp-1" 90 90, mkSess "pppp-1" "gggg-1" 50 50]) ∧
    mkSess "pppp-1" "gggg-1" 50 50 ∈
      (clearRun [mkSess "ssss-1" "pppp-1" 90 90, mkSess "pppp-1" "gggg-1" 50 50,
        mkSess "gggg-1" "" 10 10] false 70 "y").2 ∧
    (mkSess "pppp-1" "gggg-1" 50 50).ParentID = "gggg-1" ∧
    "gggg-1" ∉
      ((clearRun [mkSess "ssss-1" "pppp-1" 90 90, mkSess "pppp-1" "gggg-1" 50 50,
        mkSess "gggg-1" "" 10 10] false 70 "y").2.map (fun s => s.ID)) := by
  decide

/-- C8: the threshold guard never triggers when the configured threshold
is zero (or negative); with a positive threshold reached by the message
count and no override, the yes/no prompt is shown and the turn proceeds
exactly on a "y"/"Y" reply; with the override flag set the prompt is
skipped and the turn proceeds, the configured threshold being a read-only
input of the guard. -/
theorem C8_threshold_guard :
    (∀ (msgCount : Nat) (ignoreThr : Bool) (resp : String),
      thresholdGuard 0 msgCount ignoreThr resp = (false, true)) ∧
    (∀ (threshold : Int) (msgCount : Nat) (resp : String),
      threshold > 0 → (msgCount : Int) ≥ threshold →
      thresholdGuard threshold msgCount false resp =
        (true, decide (resp = "y" ∨ resp = "Y"))) ∧
    (∀ (threshold : Int) (msgCount : Nat) (resp : String),
      thresholdGuard threshold msgCount true resp = (false, true)) := by
  refine ⟨?_, ?_, ?_⟩
  · intro m i r
    simp [thresholdGuard]
  · intro t m r ht hm
    simp [thresholdGuard, ht, hm]
  · intro t m r
    simp [thresholdGuard]

/-- C8 witness: threshold 3, 5 messages, no override, reply "n": the
prompt is shown and the turn does not proceed. -/
theorem C8_witness :
    thresholdGuard 3 5 false "n" = (true, decide ("n" = "y" ∨ "n" = "Y")) :=
  C8_threshold_guard.2.1 3 5 "n" (by decide) (by decide)

/-- C9 counterexample to the claim as stated: a failed provider turn
restores the message list and writes nothing to the store, but it does
not leave the in-memory session unchanged — `AddMessage` bumped
`UpdatedAt` before the failure and the slice-off does not revert it. -/
theorem C9_counterexample :
    (interactiveTurn [] (mkSess "aaaa-1" "" 0 0) "hi" 5 5
        (.error ())).1.Messages = (mkSess "aaaa-1" "" 0 0).Messages ∧
    (interactiveTurn [] (mkSess "aaaa-1" "" 0 0) "hi" 5 5 (.error ())).2 = [] ∧
    (interactiveTurn [] (mkSess "aaaa-1" "" 0 0) "hi" 5 5 (.error ())).1 ≠
      mkSess "aaaa-1" "" 0 0 := by
  decide

/-- C9 (amended): on a provider error the turn leaves the message list
exactly as before and persists nothing, but the in-memory session is not
fully unchanged: its `UpdatedAt` keeps the bump made when the user
message was appended. -/
theorem C9_failed_turn (store : List Session) (sess : Session) (input : String)
    (tU tA : Nat) :
    (interactiveTurn store sess input tU tA (.error ())).1.Messages =
      sess.Messages ∧
    (interactiveTurn store sess input tU tA (.error ())).2 = store ∧
    (interactiveTurn store sess input tU tA (.error ())).1 =
      { sess with UpdatedAt := tU } := by
  refine ⟨?_, rfl, ?_⟩
  · simp [interactiveTurn, addMessage]
  · simp [interactiveTurn, addMessage]

theorem toNat_bounds_of_isDigit {c : Char} (h : c.isDigit = true) :
    48 ≤ c.toNat ∧ c.toNat ≤ 57 := by
  unfold Char.isDigit at h
  simp only [Bool.and_eq_true, decide_eq_true_eq] at h
  exact h

theorem dVal_lt_10 {c : Char} (h : c.isDigit = true) : dVal c < 10 := by
  have hb := toNat_bounds_of_isDigit h
  have h48 : '0'.toNat = 48 := rfl
  unfold dVal
  rw [h48]
  omega

theorem dVal_digitChar (k : Nat) (hk : k < 10) : dVal (digitChar k) = k := by
  unfold dVal digitChar
  interval_cases k <;> decide

theorem isDigit_digitChar (k : Nat) (hk : k < 10) :
    (digitChar k).isDigit = true := by
  interval_cases k <;> decide

theorem digitChar_dVal {c : Char} (h : c.isDigit = true) :
    digitChar (dVal c) = c := by
  have hb := toNat_bounds_of_isDigit h
  have h48 : '0'.toNat = 48 := rfl
  unfold digitChar dVal
  rw [h48]
  have he : 48 + (c.toNat - 48) = c.toNat := by omega
  rw [he]
  exact Char.ofNat_toNat c

theorem daysInMonth_le (y m : Nat) : daysInMonth y m ≤ 31 := by
  unfold daysInMonth
  split
  · split <;> omega
  · split <;> omega

theorem tryParseYMD_cons (y1 y2 y3 y4 c1 m1 m2 c2 d1 d2 : Char) :
    tryParseYMD ⟨[y1, y2, y3, y4, c1, m1, m2, c2, d1, d2]⟩ =
      (if c1 = '-' ∧ c2 = '-' ∧ y1.isDigit ∧ y2.isDigit ∧ y3.isDigit ∧
          y4.isDigit ∧ m1.isDigit ∧ m2.isDigit ∧ d1.isDigit ∧ d2.isDigit then
        if 1 ≤ dVal m1 * 10 + dVal m2 ∧ dVal m1 * 10 + dVal m2 ≤ 12 ∧
            1 ≤ dVal d1 * 10 + dVal d2 ∧
            dVal d1 * 10 + dVal d2 ≤
              daysInMonth
                (dVal y1 * 1000 + dVal y2 * 100 + dVal y3 * 10 + dVal y4)
                (dVal m1 * 10 + dVal m2) then
          some ⟨dVal y1 * 1000 + dVal y2 * 100 + dVal y3 * 10 + dVal y4,
            dVal m1 * 10 + dVal m2, dVal d1 * 10 + dVal d2⟩
        else none
      else none) := rfl

theorem tryParseYM_cons (y1 y2 y3 y4 c1 m1 m2 : Char) :
    tryParseYM ⟨[y1, y2, y3, y4, c1, m1, m2]⟩ =
      (if c1 = '-' ∧ y1.isDigit ∧ y2.isDigit ∧ y3.isDigit ∧ y4.isDigit ∧
          m1.isDigit ∧ m2.isDigit then
        if 1 ≤ dVal m1 * 10 + dVal m2 ∧ dVal m1 * 10 + dVal m2 ≤ 12 then
          some ⟨dVal y1 * 1000 + dVal y2 * 100 + dVal y3 * 10 + dVal y4,
            dVal m1 * 10 + dVal m2, 1⟩
        else none
      else none) := rfl

theorem tryParseY_cons (y1 y2 y3 y4 : Char) :
    tryParseY ⟨[y1, y2, y3, y4]⟩ =
      (if y1.isDigit ∧ y2.isDigit ∧ y3.isDigit ∧ y4.isDigit then
        some ⟨dVal y1 * 1000 + dVal y2 * 100 + dVal y3 * 10 + dVal y4, 1, 1⟩
      else none) := rfl

theorem tryParseYMD_renderYMD (y m d : Nat) (hy : y ≤ 9999)
    (hm1 : 1 ≤ m) (hm2 : m ≤ 12) (hd1 : 1 ≤ d) (hd2 : d ≤ daysInMonth y m) :
    tryParseYMD (renderYMD y m d) = some ⟨y, m, d⟩ := by
  have hd99 : d ≤ 99 := by
    have := daysInMonth_le y m
    omega
  have hform : renderYMD y m d =
      ⟨[digitChar (y / 1000 % 10), digitChar (y / 100 % 10),
        digitChar (y / 10 % 10), digitChar (y % 10), '-',
        digitChar (m / 10 % 10), digitChar (m % 10), '-',
        digitChar (d / 10 % 10), digitChar (d % 10)]⟩ := rfl
  rw [hform, tryParseYMD_cons]
  rw [dVal_digitChar (y / 1000 % 10) (by omega),
    dVal_digitChar (y / 100 % 10) (by omega),
    dVal_digitChar (y / 10 % 10) (by omega),
    dVal_digitChar (y % 10) (by omega),
    dVal_digitChar (m / 10 % 10) (by omega),
    dVal_digitChar (m % 10) (by omega),
    dVal_digitChar (d / 10 % 10) (by omega),
    dVal_digitChar (d % 10) (by omega)]
  have hyv : y / 1000 % 10 * 1000 + y / 100 % 10 * 100 + y / 10 % 10 * 10 +
      y % 10 = y := by omega
  have hmv : m / 10 % 10 * 10 + m % 10 = m := by omega
  have hdv : d / 10 % 10 * 10 + d % 10 = d := by omega
  rw [hyv, hmv, hdv]
  rw [if_pos]
  · rw [if_pos ⟨hm1, hm2, hd1, hd2⟩]
  · exact ⟨rfl, rfl, isDigit_digitChar (y / 1000 % 10) (by omega),
      isDigit_digitChar (y / 100 % 10) (by omega),
      isDigit_digitChar (y / 10 % 10) (by omega),
      isDigit_digitChar (y % 10) (by omega),
      isDigit_digitChar (m / 10 % 10) (by omega),
      isDigit_digitChar (m % 10) (by omega),
      isDigit_digitChar (d / 10 % 10) (by omega),
      isDigit_digitChar (d % 10) (by omega)⟩

theorem tryParseYM_renderYM (y m : Nat) (hy : y ≤ 9999)
    (hm1 : 1 ≤ m) (hm2 : m ≤ 12) :
    tryParseYM (renderYM y m) = some ⟨y, m, 1⟩ := by
  have hform : renderYM y m =
      ⟨[digitChar (y / 1000 % 10), digitChar (y / 100 % 10),
        digitChar (y / 10 % 10), digitChar (y % 10), '-',
        digitChar (m / 10 % 10), digitChar (m % 10)]⟩ := rfl
  rw [hform, tryParseYM_cons]
  rw [dVal_digitChar (y / 1000 % 10) (by omega),
    dVal_digitChar (y / 100 % 10) (by omega),
    dVal_digitChar (y / 10 % 10) (by omega),
    dVal_digitChar (y % 10) (by omega),
    dVal_digitChar (m / 10 % 10) (by omega),
    dVal_digitChar (m % 10) (by omega)]
  have hyv : y / 1000 % 10 * 1000 + y / 100 % 10 * 100 + y / 10 % 10 * 10 +
      y % 10 = y := by omega
  have hmv : m / 10 % 10 * 10 + m % 10 = m := by omega
  rw [hyv, hmv]
  rw [if_pos]
  · rw [if_pos ⟨hm1, hm2⟩]
  · exact ⟨rfl, isDigit_digitChar (y / 1000 % 10) (by omega),
      isDigit_digitChar (y / 100 % 10) (by omega),
      isDigit_digitChar (y / 10 % 10) (by omega),
      isDigit_digitChar (y % 10) (by omega),
      isDigit_digitChar (m / 10 % 10) (by omega),
      isDigit_digitChar (m % 10) (by omega)⟩

theorem tryParseY_renderY (y : Nat) (hy : y ≤ 9999) :
    tryParseY (renderY y) = some ⟨y, 1, 1⟩ := by
  have hform : renderY y =
      ⟨[digitChar (y / 1000 % 10), digitChar (y / 100 % 10),
        digitChar (y / 10 % 10), digitChar (y % 10)]⟩ := rfl
  rw [hform, tryParseY_cons]
  rw [dVal_digitChar (y / 1000 % 10) (by omega),
    dVal_digitChar (y / 100 % 10) (by omega),
    dVal_digitChar (y / 10 % 10) (by omega),
    dVal_digitChar (y % 10) (by omega)]
  have hyv : y / 1000 % 10 * 1000 + y / 100 % 10 * 100 + y / 10 % 10 * 10 +
      y % 10 = y := by omega
  rw [hyv]
  rw [if_pos]
  exact ⟨isDigit_digitChar (y / 1000 % 10) (by omega),
      isDigit_digitChar (y / 100 % 10) (by omega),
      isDigit_digitChar (y / 10 % 10) (by omega),
      isDigit_digitChar (y % 10) (by omega)⟩

theorem tryParseYMD_inv {s : String} {g : GoDate} (h : tryParseYMD s = some g) :
    s = renderYMD g.y g.m g.d := by
  unfold tryParseYMD at h
  split at h
  next y1 y2 y3 y4 c1 m1 m2 c2 d1 d2 heq =>
    split at h
    next hcond =>
      split at h
      next hrange =>
        obtain ⟨hc1, hc2, hy1, hy2, hy3, hy4, hm1, hm2, hd1, hd2⟩ := hcond
        injection h with h
        subst h
        subst hc1
        subst hc2
        have hv1 := dVal_lt_10 hy1
        have hv2 := dVal_lt_10 hy2
        have hv3 := dVal_lt_10 hy3
        have hv4 := dVal_lt_10 hy4
        have hv5 := dVal_lt_10 hm1
        have hv6 := dVal_lt_10 hm2
        have hv7 := dVal_lt_10 hd1
        have hv8 := dVal_lt_10 hd2
        cases s with
        | mk l =>
            have hl : l = [y1, y2, y3, y4, '-', m1, m2, '-', d1, d2] := heq
            subst hl
            show String.mk _ = renderYMD
              (dVal y1 * 1000 + dVal y2 * 100 + dVal y3 * 10 + dVal y4)
              (dVal m1 * 10 + dVal m2) (dVal d1 * 10 + dVal d2)
            unfold renderYMD pad4 pad2
            have e1 : (dVal y1 * 1000 + dVal y2 * 100 + dVal y3 * 10 + dVal y4)
                / 1000 % 10 = dVal y1 := by omega
            have e2 : (dVal y1 * 1000 + dVal y2 * 100 + dVal y3 * 10 + dVal y4)
                / 100 % 10 = dVal y2 := by omega
            have e3 : (dVal y1 * 1000 + dVal y2 * 100 + dVal y3 * 10 + dVal y4)
                / 10 % 10 = dVal y3 := by omega
            have e4 : (dVal y1 * 1000 + dVal y2 * 100 + dVal y3 * 10 + dVal y4)
                % 10 = dVal y4 := by omega
            have e5 : (dVal m1 * 10 + dVal m2) / 10 % 10 = dVal m1 := by omega
            have e6 : (dVal m1 * 10 + dVal m2) % 10 = dVal m2 := by omega
            have e7 : (dVal d1 * 10 + dVal d2) / 10 % 10 = dVal d1 := by omega
            have e8 : (dVal d1 * 10 + dVal d2) % 10 = dVal d2 := by omega
            rw [e1, e2, e3, e4, e5, e6, e7, e8]
            rw [digitChar_dVal hy1, digitChar_dVal hy2, digitChar_dVal hy3,
              digitChar_dVal hy4, digitChar_dVal hm1, digitChar_dVal hm2,
              digitChar_dVal hd1, digitChar_dVal hd2]
            rfl
      next => exact absurd h (by simp)
    next => exact absurd h (by simp)
  next => exact absurd h (by simp)

theorem tryParseYM_inv {s : String} {g : GoDate} (h : tryParseYM s = some g) :
    s = renderYM g.y g.m ∧ g.d = 1 := by
  unfold tryParseYM at h
  split at h
  next y1 y2 y3 y4 c1 m1 m2 heq =>
    split at h
    next hcond =>
      split at h
      next hrange =>
        obtain ⟨hc1, hy1, hy2, hy3, hy4, hm1, hm2⟩ := hcond
        injection h with h
        subst h
        subst hc1
        have hv1 := dVal_lt_10 hy1
        have hv2 := dVal_lt_10 hy2
        have hv3 := dVal_lt_10 hy3
        have hv4 := dVal_lt_10 hy4
        have hv5 := dVal_lt_10 hm1
        have hv6 := dVal_lt_10 hm2
        refine ⟨?_, rfl⟩
        cases s with
        | mk l =>
            have hl : l = [y1, y2, y3, y4, '-', m1, m2] := heq
            subst hl
            show String.mk _ = renderYM
              (dVal y1 * 1000 + dVal y2 * 100 + dVal y3 * 10 + dVal y4)
              (dVal m1 * 10 + dVal m2)
            unfold renderYM pad4 pad2
            have e1 : (dVal y1 * 1000 + dVal y2 * 100 + dVal y3 * 10 + dVal y4)
                / 1000 % 10 = dVal y1 := by omega
            have e2 : (dVal y1 * 1000 + dVal y2 * 100 + dVal y3 * 10 + dVal y4)
                / 100 % 10 = dVal y2 := by omega
            have e3 : (dVal y1 * 1000 + dVal y2 * 100 + dVal y3 * 10 + dVal y4)
                / 10 % 10 = dVal y3 := by omega
            have e4 : (dVal y1 * 1000 + dVal y2 * 100 + dVal y3 * 10 + dVal y4)
                % 10 = dVal y4 := by omega
            have e5 : (dVal m1 * 10 + dVal m2) / 10 % 10 = dVal m1 := by omega
            have e6 : (dVal m1 * 10 + dVal m2) % 10 = dVal m2 := by omega
            rw [e1, e2, e3, e4, e5, e6]
            rw [digitChar_dVal hy1, digitChar_dVal hy2, digitChar_dVal hy3,
              digitChar_dVal hy4, digitChar_dVal hm1, digitChar_dVal hm2]
            rfl
      next => exact absurd h (by simp)
    next => exact absurd h (by simp)
  next => exact absurd h (by simp)

theorem tryParseY_inv {s : String} {g : GoDate} (h : tryParseY s = some g) :
    s = renderY g.y ∧ g.m = 1 ∧ g.d = 1 := by
  unfold tryParseY at h
  split at h
  next y1 y2 y3 y4 heq =>
    split at h
    next hcond =>
      obtain ⟨hy1, hy2, hy3, hy4⟩ := hcond
      injection h with h
      subst h
      have hv1 := dVal_lt_10 hy1
      have hv2 := dVal_lt_10 hy2
      have hv3 := dVal_lt_10 hy3
      have hv4 := dVal_lt_10 hy4
      refine ⟨?_, rfl, rfl⟩
      cases s with
      | mk l =>
          have hl : l = [y1, y2, y3, y4] := heq
          subst hl
          show String.mk _ = renderY
            (dVal y1 * 1000 + dVal y2 * 100 + dVal y3 * 10 + dVal y4)
          unfold renderY pad4
          have e1 : (dVal y1 * 1000 + dVal y2 * 100 + dVal y3 * 10 + dVal y4)
              / 1000 % 10 = dVal y1 := by omega
          have e2 : (dVal y1 * 1000 + dVal y2 * 100 + dVal y3 * 10 + dVal y4)
              / 100 % 10 = dVal y2 := by omega
          have e3 : (dVal y1 * 1000 + dVal y2 * 100 + dVal y3 * 10 + dVal y4)
              / 10 % 10 = dVal y3 := by omega
          have e4 : (dVal y1 * 1000 + dVal y2 * 100 + dVal y3 * 10 + dVal y4)
              % 10 = dVal y4 := by omega
          rw [e1, e2, e3, e4]
          rw [digitChar_dVal hy1, digitChar_dVal hy2, digitChar_dVal hy3,
            digitChar_dVal hy4]
    next => exact absurd h (by simp)
  next => exact absurd h (by simp)

theorem parseDate_ok_inv {s : String} {g : GoDate} (h : parseDate s = .ok g) :
    s = renderYMD g.y g.m g.d ∨ s = renderYM g.y g.m ∨ s = renderY g.y := by
  unfold parseDate at h
  split at h
  next d hd =>
    injection h with h
    subst h
    exact Or.inl (tryParseYMD_inv hd)
  next hd =>
    split at h
    next d hm =>
      injection h with h
      subst h
      exact Or.inr (Or.inl (tryParseYM_inv hm).1)
    next hm =>
      split at h
      next d hy =>
        injection h with h
        subst h
        exact Or.inr (Or.inr (tryParseY_inv hy).1)
      next => exact absurd h (by simp)

theorem parseDate_renderYMD (y m d : Nat) (hy : y ≤ 9999) (hm1 : 1 ≤ m)
    (hm2 : m ≤ 12) (hd1 : 1 ≤ d) (hd2 : d ≤ daysInMonth y m) :
    parseDate (renderYMD y m d) = .ok ⟨y, m, d⟩ := by
  unfold parseDate
  rw [tryParseYMD_renderYMD y m d hy hm1 hm2 hd1 hd2]

theorem parseDate_renderYM (y m : Nat) (hy : y ≤ 9999) (hm1 : 1 ≤ m)
    (hm2 : m ≤ 12) :
    parseDate (renderYM y m) = .ok ⟨y, m, 1⟩ := by
  unfold parseDate
  have h1 : tryParseYMD (renderYM y m) = none := rfl
  rw [h1, tryParseYM_renderYM y m hy hm1 hm2]

theorem parseDate_renderY (y : Nat) (hy : y ≤ 9999) :
    parseDate (renderY y) = .ok ⟨y, 1, 1⟩ := by
  unfold parseDate
  have h1 : tryParseYMD (renderY y) = none := rfl
  have h2 : tryParseYM (renderY y) = none := rfl
  rw [h1, h2, tryParseY_renderY y hy]

theorem mem_of_mem_clearCands2 {store cands : List Session} {q : Session}
    (h : q ∈ clearCands2 store cands) : q ∈ cands := by
  unfold clearCands2 at h
  split at h
  · exact h
  · exact (List.mem_filter.mp h).1

theorem created_lt_of_idMem_cands2 {store : List Session} {cutoff : Nat}
    {s : Session} (hnd : (store.map (fun x => x.ID)).Nodup) (hs : s ∈ store)
    (h : idMem (clearCands2 store (buildCandidates store false cutoff)) s.ID
      = true) :
    s.CreatedAt < cutoff := by
  unfold idMem at h
  rcases List.any_eq_true.mp h with ⟨q, hq, hqe⟩
  have hqc := mem_of_mem_clearCands2 hq
  rw [buildCandidates_false_eq] at hqc
  have hq2 := List.mem_filter.mp hqc
  have hqid : q.ID = s.ID := by simpa using hqe
  have hqs : q = s := List.inj_on_of_nodup_map hnd hq2.1 hs hqid
  rw [hqs] at hq2
  simpa using hq2.2

theorem clearRun_snd_cases (store : List Session) (cutoff : Nat) (resp : String) :
    (clearRun store false cutoff resp).2 = store ∨
      (clearRun store false cutoff resp).2 =
        store.filter (fun s =>
          !(idMem (clearCands2 store (buildCandidates store false cutoff))
            s.ID)) := by
  unfold clearRun
  by_cases h0 : store.isEmpty = true
  · rw [if_pos h0]
    exact Or.inl rfl
  · rw [if_neg h0]
    by_cases h1 : false = false ∧ (buildCandidates store false cutoff).isEmpty = true
    · rw [if_pos h1]
      exact Or.inl rfl
    · rw [if_neg h1]
      by_cases h2 : (clearCands2 store (buildCandidates store false cutoff)).isEmpty
          = true
      · rw [if_pos h2]
        exact Or.inl rfl
      · rw [if_neg h2]
        by_cases h3 : resp ≠ "y" ∧ resp ≠ "Y"
        · rw [if_pos h3]
          exact Or.inl rfl
        · rw [if_neg h3]
          exact Or.inr (deleteLoop_fst store _)

/-- C6: `clear --before` deletes only sessions created strictly before
the cutoff instant — every session created at or after it is still stored
unchanged, and nothing is ever added — and the date parser accepts
exactly the three precisions `YYYY-MM-DD`, `YYYY-MM` and `YYYY` (years up
to four digits), anchoring the shorter forms to the first day of the
period (the clock part of the first instant is Go's parse default,
midnight); every successfully parsed string is one of the three rendered
forms, so any other form fails with the invalid-argument error. -/
theorem C6_clear_before :
    (∀ (store : List Session) (cutoff : Nat) (resp : String),
      (store.map (fun s => s.ID)).Nodup →
      ((∀ s ∈ store, ¬(s.CreatedAt < cutoff) →
          s ∈ (clearRun store false cutoff resp).2) ∧
        (∀ s ∈ (clearRun store false cutoff resp).2, s ∈ store) ∧
        (∀ s ∈ store, s ∉ (clearRun store false cutoff resp).2 →
          s.CreatedAt < cutoff))) ∧
    (∀ y m d : Nat, y ≤ 9999 → 1 ≤ m → m ≤ 12 → 1 ≤ d → d ≤ daysInMonth y m →
      parseDate (renderYMD y m d) = .ok ⟨y, m, d⟩) ∧
    (∀ y m : Nat, y ≤ 9999 → 1 ≤ m → m ≤ 12 →
      parseDate (renderYM y m) = .ok ⟨y, m, 1⟩) ∧
    (∀ y : Nat, y ≤ 9999 → parseDate (renderY y) = .ok ⟨y, 1, 1⟩) ∧
    (∀ (s : String) (g : GoDate), parseDate s = .ok g →
      s = renderYMD g.y g.m g.d ∨ s = renderYM g.y g.m ∨ s = renderY g.y) := by
  refine ⟨?_, parseDate_renderYMD, parseDate_renderYM, parseDate_renderY,
    fun s g h => parseDate_ok_inv h⟩
  intro store cutoff resp hnd
  rcases clearRun_snd_cases store cutoff resp with hk | hk <;> rw [hk]
  · exact ⟨fun s hs _ => hs, fun s hs => hs, fun s hs hns => absurd hs hns⟩
  · refine ⟨?_, ?_, ?_⟩
    · intro s hs hnew
      refine List.mem_filter.mpr ⟨hs, ?_⟩
      have hfalse : idMem (clearCands2 store (buildCandidates store false cutoff))
          s.ID = false := by
        apply eq_false_of_ne_true
        intro ht
        exact hnew (created_lt_of_idMem_cands2 hnd hs ht)
      simp [hfalse]
    · intro s hs
      exact (List.mem_filter.mp hs).1
    · intro s hs hns
      by_cases hmem : idMem (clearCands2 store (buildCandidates store false cutoff))
          s.ID = true
      · exact created_lt_of_idMem_cands2 hnd hs hmem
      · exfalso
        apply hns
        refine List.mem_filter.mpr ⟨hs, ?_⟩
        simp [eq_false_of_ne_true hmem]

/-- C6 witness: a month-precision input parses to the first day of the
month, and a concrete non-empty store keeps its fresh session through a
run with cutoff 70. -/
theorem C6_witness :
    parseDate (renderYM 2024 12) = .ok ⟨2024, 12, 1⟩ ∧
    mkSess "aaaa-1" "" 90 90 ∈
      (clearRun [mkSess "aaaa-1" "" 90 90] false 70 "y").2 :=
  ⟨C6_clear_before.2.2.1 2024 12 (by omega) (by omega) (by omega),
    (C6_clear_before.1 [mkSess "aaaa-1" "" 90 90] 70 "y" (by decide)).1
      (mkSess "aaaa-1" "" 90 90) (by decide) (by decide)⟩

theorem find?_map_key (l : List (String × Json)) (k : String) (v : Json)
    (h : l.any (fun e => e.1 == k) = true) :
    (l.map (fun e => if e.1 == k then (k, v) else e)).find?
      (fun e => e.1 == k) = some (k, v) := by
  induction l with
  | nil => simp at h
  | cons e t ih =>
      by_cases he : (e.1 == k) = true
      · rw [List.map_cons, if_pos he]
        have hk : ((k, v).1 == k) = true := by simp
        simp only [List.find?, hk]
      · have hef : (e.1 == k) = false := eq_false_of_ne_true he
        rw [List.map_cons, if_neg he]
        simp only [List.find?, hef]
        apply ih
        rw [List.any_cons, hef] at h
        simpa using h

theorem find?_append_key (l : List (String × Json)) (k : String) (v : Json)
    (hall : ∀ e ∈ l, (e.1 == k) = false) :
    (l ++ [(k, v)]).find? (fun e => e.1 == k) = some (k, v) := by
  induction l with
  | nil =>
      have hk : ((k, v).1 == k) = true := by simp
      simp only [List.nil_append, List.find?, hk]
  | cons e t ih =>
      have hef := hall e (by simp)
      rw [List.cons_append]
      simp only [List.find?, hef]
      exact ih (fun e2 he2 => hall e2 (List.mem_cons_of_mem _ he2))

theorem find?_saveSessionFile (dir : List (String × Json)) (s : Session) :
    (saveSessionFile dir s).find? (fun e => e.1 == s.ID) =
      some (s.ID, encodeSession s) := by
  unfold saveSessionFile
  by_cases h : dir.any (fun e => e.1 == s.ID) = true
  · rw [if_pos h]
    exact find?_map_key dir s.ID (encodeSession s) h
  · rw [if_neg h]
    exact find?_append_key dir s.ID (encodeSession s) (fun e he =>
      eq_false_of_ne_true (List.any_eq_false.mp (eq_false_of_ne_true h) e he))

theorem decodeMessage_encodeMessage (m : Message) :
    decodeMessage (encodeMessage m) = some (loadedMessage m) := by
  cases m with
  | mk r c ts => cases ts <;> rfl

theorem mapM_decodeMessage_encodeMessage (l : List Message) :
    (l.map encodeMessage).mapM decodeMessage = some (l.map loadedMessage) := by
  induction l with
  | nil => rfl
  | cons m t ih =>
      rw [List.map_cons, List.mapM_cons, decodeMessage_encodeMessage, ih]
      rfl

theorem decodeSession_encodeSession (s : Session) :
    decodeSession (encodeSession s) = some (loadedSession s) := by
  show Option.bind ((s.Messages.map encodeMessage).mapM decodeMessage)
    (fun ms => some ⟨s.ID, s.ParentID, s.Name, s.TemplateName, s.SystemPrompt,
      s.Model, s.CreatedAt, s.UpdatedAt, ms⟩) = some (loadedSession s)
  rw [mapM_decodeMessage_encodeMessage]
  rfl

theorem loadSessionFile_saveSessionFile (dir : List (String × Json))
    (s : Session) :
    loadSessionFile (saveSessionFile dir s) s.ID = .ok (loadedSession s) := by
  unfold loadSessionFile
  rw [find?_saveSessionFile]
  show (match decodeSession (encodeSession s) with
    | some s2 => Except.ok s2
    | none => Except.error LoadErr.corrupt) = .ok (loadedSession s)
  rw [decodeSession_encodeSession]

/-- C3 counterexample to the claim as stated: persisting a freshly
built session (whose message timestamps are `time.Time` values) and
loading it back does not yield an equal value — the message timestamp
comes back as its serialized string, because the `Timestamp` field is
dynamically typed (see the type assertion in `cmd/sessions.go` line
117). All session-level fields and the message roles, contents and
order do round-trip. -/
theorem C3_counterexample :
    loadSessionFile
        (saveSessionFile []
          ⟨"id-1", "", "", "", "", "m", 3, 4, [⟨"user", "hi", .goTime 5⟩]⟩)
        "id-1" ≠
      .ok ⟨"id-1", "", "", "", "", "m", 3, 4, [⟨"user", "hi", .goTime 5⟩]⟩ ∧
    loadSessionFile
        (saveSessionFile []
          ⟨"id-1", "", "", "", "", "m", 3, 4, [⟨"user", "hi", .goTime 5⟩]⟩)
        "id-1" =
      .ok ⟨"id-1", "", "", "", "", "m", 3, 4,
        [⟨"user", "hi", .goString (.timeRendered 5)⟩]⟩ := by
  constructor
  · intro h
    have h2 := loadSessionFile_saveSessionFile []
      ⟨"id-1", "", "", "", "", "m", 3, 4, [⟨"user", "hi", .goTime 5⟩]⟩
    rw [h] at h2
    have h3 := Except.ok.inj h2
    have h4 := congrArg Session.Messages h3
    simp [loadedSession, loadedMessage, loadedTimeVal] at h4
  · exact loadSessionFile_saveSessionFile []
      ⟨"id-1", "", "", "", "", "m", 3, 4, [⟨"user", "hi", .goTime 5⟩]⟩

/-- C3 (amended): persisting a session and immediately loading it by its
full identifier recovers the identifier, parent identifier, name,
template name, system prompt, model and both timestamps exactly, and the
messages in the same order with the same roles and contents; each
message's dynamically typed timestamp, however, is recovered as its
serialized string form rather than the original time value. -/
theorem C3_round_trip (dir : List (String × Json)) (s : Session) :
    loadSessionFile (saveSessionFile dir s) s.ID = .ok (loadedSession s) ∧
    (loadedSession s).ID = s.ID ∧
    (loadedSession s).ParentID = s.ParentID ∧
    (loadedSession s).Name = s.Name ∧
    (loadedSession s).TemplateName = s.TemplateName ∧
    (loadedSession s).SystemPrompt = s.SystemPrompt ∧
    (loadedSession s).Model = s.Model ∧
    (loadedSession s).CreatedAt = s.CreatedAt ∧
    (loadedSession s).UpdatedAt = s.UpdatedAt ∧
    (loadedSession s).Messages.map (fun m => (m.Role, m.Content)) =
      s.Messages.map (fun m => (m.Role, m.Content)) ∧
    (loadedSession s).Messages = s.Messages.map loadedMessage := by
  refine ⟨loadSessionFile_saveSessionFile dir s, rfl, rfl, rfl, rfl, rfl, rfl,
    rfl, rfl, ?_, rfl⟩
  show (s.Messages.map loadedMessage).map (fun m => (m.Role, m.Content)) =
    s.Messages.map (fun m => (m.Role, m.Content))
  rw [List.map_map]
  apply List.map_congr_left
  intro m _
  rfl
